import Mathlib

/-!
Verification of the ptcmd argument-completion engine (`ptcmd/completer.py`,
class `ArgparseCompleter`) and the subcommand dispatch chain
(`ptcmd/command.py`, `Command.invoke_from_ns`).

The Python code is shallowly embedded: the argparse action/parser data that
the completer reads is modelled by the inductive types `Action` and `Parser`;
the mutable per-request replay state of `_get_completion_texts` becomes the
record `LoopState`; the token loop becomes the step function `runStep` and
the list recursion `runLevel`; the post-loop completion of the final token
becomes `completeLast`.  Python dictionaries that are only read through
`.get(key, [])` are modelled as total functions with default `[]`.
-/

namespace Ptcmd

/-- `argparse` nargs values as they are inspected by `_ArgumentState.__init__`:
`None`, `'?'` (OPTIONAL), `'*'` (ZERO_OR_MORE), `'+'` (ONE_OR_MORE),
`'...'` (REMAINDER), `'A...'` (PARSER, used by `_SubParsersAction`), or an
integer. -/
inductive Nargs : Type where
  | nargsNone
  | optional
  | zeroOrMore
  | oneOrMore
  | remainder
  | parserMulti
  | exact (n : Nat)
deriving DecidableEq, Repr

/-- The value of `_ArgumentState.max` (and of the components of a custom
`get_nargs_range`): an `int`, `float('inf')`, or the non-numeric string
`'A...'` that `nargs = argparse.PARSER` produces (`self.min = self.max =
self.action.nargs` in the final `else`). -/
inductive Arity : Type where
  | fin (n : Nat)
  | inf
  | nonInt
deriving DecidableEq, Repr

/-- The value of `argparse.Action.help`: `None`, the sentinel
`argparse.SUPPRESS`, or a help string. -/
inductive HelpVal : Type where
  | noHelp
  | suppress
  | text (s : String)
deriving DecidableEq, Repr

mutual
/-- One `argparse.Action` as read by the completer:
`option_strings`, `dest`, `nargs`, an optional custom `get_nargs_range()`
result, `choices` (as literal strings), `help`, whether the action is one of
`_AppendAction`/`_AppendConstAction`/`_CountAction` (`appendLike`), and — for
a `_SubParsersAction` — the mapping from subcommand name to sub-parser
(`sub`; `none` for every other action). -/
inductive Action : Type where
  | mk (option_strings : List String) (dest : String) (nargs : Nargs)
      (nargsRange : Option (Nat × Arity)) (choices : Option (List String))
      (help : HelpVal) (appendLike : Bool)
      (sub : Option (List (String × Parser))) : Action

/-- An `argparse.ArgumentParser` as read by the completer: its `_actions`
in declaration order, `allow_abbrev`, `prefix_chars`, and the truthiness of
`_has_negative_number_optionals`. -/
inductive Parser : Type where
  | mk (actions : List Action) (allow_abbrev : Bool) (prefix_chars : List Char)
      (has_negative_number_optionals : Bool) : Parser
end

def Action.option_strings : Action → List String
  | .mk v _ _ _ _ _ _ _ => v

def Action.dest : Action → String
  | .mk _ v _ _ _ _ _ _ => v

def Action.nargs : Action → Nargs
  | .mk _ _ v _ _ _ _ _ => v

def Action.nargsRange : Action → Option (Nat × Arity)
  | .mk _ _ _ v _ _ _ _ => v

def Action.choices : Action → Option (List String)
  | .mk _ _ _ _ v _ _ _ => v

def Action.help : Action → HelpVal
  | .mk _ _ _ _ _ v _ _ => v

def Action.appendLike : Action → Bool
  | .mk _ _ _ _ _ _ v _ => v

def Action.sub : Action → Option (List (String × Parser))
  | .mk _ _ _ _ _ _ _ v => v

def Parser.actions : Parser → List Action
  | .mk v _ _ _ => v

def Parser.allow_abbrev : Parser → Bool
  | .mk _ v _ _ => v

def Parser.prefix_chars : Parser → List Char
  | .mk _ _ v _ => v

def Parser.has_negative_number_optionals : Parser → Bool
  | .mk _ _ _ v => v

/-- The `(option, action)` pairs collected by `ArgparseCompleter.__init__`
into `self._flags` / `self._flag_to_action` (declaration order; argparse
rejects duplicate option strings at `add_argument` time, so the dict is
faithfully modelled by first-match lookup over this list). -/
def flagPairs (p : Parser) : List (String × Action) :=
  (p.actions.map (fun a => a.option_strings.map (fun o => (o, a)))).flatten

/-- `self._flags`: every option string, in declaration order. -/
def flags (p : Parser) : List String :=
  (flagPairs p).map (fun fa => fa.1)

/-- `self._flag_to_action[token]` (with `token in self._flag_to_action`
modelled by `isSome`). -/
def flagToAction (p : Parser) (token : String) : Option Action :=
  ((flagPairs p).find? (fun fa => fa.1 = token)).map (fun fa => fa.2)

/-- `self._positional_actions`: the actions with no option strings. -/
def positionals (p : Parser) : List Action :=
  p.actions.filter (fun a => a.option_strings.isEmpty)

/-- Dictionary lookup `self._subcommand_action.choices[token]`
(`token in choices` modelled by `isSome`). -/
def lookupSub (token : String) (tbl : List (String × Parser)) : Option Parser :=
  (tbl.find? (fun kp => kp.1 = token)).map (fun kp => kp.2)

/-- `_SubParsersAction.choices` is the dict of sub-parsers, so iterating the
`choices` of such an action yields the subcommand names; for every other
action `choices` is the declared choice list.  This is the view used by
`_get_arg_completions`. -/
def effectiveChoices (a : Action) : Option (List String) :=
  match a.sub with
  | some tbl => some (tbl.map (fun kp => kp.1))
  | none => a.choices

/-- Python `s.startswith(pre)`. -/
def pyStartsWith (s pre : String) : Bool :=
  pre.data.isPrefixOf s.data

/-- `shlex.whitespace` / the whitespace characters relevant to flag syntax. -/
def shWS (c : Char) : Bool :=
  c == ' ' || c == '\t' || c == '\r' || c == '\n'

/-- The second half of argparse's `_negative_number_matcher` pattern,
`\d*\.\d+$`, checked after the leading `-`. -/
def digitsDotDigits (cs : List Char) : Bool :=
  match cs.dropWhile Char.isDigit with
  | '.' :: fs => !fs.isEmpty && fs.all Char.isDigit
  | _ => false

/-- argparse's `_negative_number_matcher`, `^-\d+$|^-\d*\.\d+$`, applied to a
whole token. -/
def isNegativeNumberTok (s : String) : Bool :=
  match s.data with
  | '-' :: rest => (!rest.isEmpty && rest.all Char.isDigit) || digitsDotDigits rest
  | _ => false

/-- `ArgparseCompleter._looks_like_flag`. -/
def looksLikeFlag (p : Parser) (token : String) : Bool :=
  match token.data with
  | [] => false
  | c :: _ =>
    if !(p.prefix_chars.contains c) then false
    else if isNegativeNumberTok token && !p.has_negative_number_optionals then false
    else if token.data.contains ' ' then false
    else true

/-- `ArgparseCompleter._single_prefix_char`. -/
def singlePrefixChar (p : Parser) (token : String) : Bool :=
  match token.data with
  | [c] => p.prefix_chars.contains c
  | _ => false

/-- `ArgparseCompleter._ArgumentState`. -/
@[ext]
structure ArgState : Type where
  action : Action
  min : Option Nat
  max : Arity
  count : Nat
  is_remainder : Bool

/-- `_ArgumentState.__init__`: `is_remainder` from `nargs == REMAINDER`, and
`(min, max)` from `get_nargs_range()` when present, else from `nargs`. -/
def mkArgState (a : Action) : ArgState :=
  let mm : Option Nat × Arity :=
    match a.nargsRange with
    | some (lo, hi) => (some lo, hi)
    | none =>
      match a.nargs with
      | .nargsNone => (some 1, .fin 1)
      | .optional => (some 0, .fin 1)
      | .zeroOrMore => (some 0, .inf)
      | .remainder => (some 0, .inf)
      | .oneOrMore => (some 1, .inf)
      | .parserMulti => (none, .nonInt)
      | .exact n => (some n, .fin n)
  { action := a, min := mm.1, max := mm.2, count := 0,
    is_remainder := a.nargs == .remainder }

/-- `arg_state.count += 1` of `_consume_argument`. -/
def ArgState.bump (s : ArgState) : ArgState :=
  { s with count := s.count + 1 }

/-- `isinstance(state.min, int) and state.count < state.min`. -/
def minUnmet (s : ArgState) : Bool :=
  match s.min with
  | some m => s.count < m
  | none => false

/-- The same test applied to an optional state (`flag_arg_state and
isinstance(min, int) and count < min`). -/
def minUnmetOpt (s : Option ArgState) : Bool :=
  match s with
  | some st => minUnmet st
  | none => false

/-- `isinstance(state.max, (float, int)) and count >= state.max`
(`float('inf')` passes the isinstance test but the comparison is never
satisfied; the non-numeric `'A...'` fails the isinstance test). -/
def reachedMax (count : Nat) (max : Arity) : Bool :=
  match max with
  | .fin n => n ≤ count
  | .inf => false
  | .nonInt => false

/-- `new_arg_state.max > 0`.  The `'A...'` case would be a Python `TypeError`,
but it cannot arise: this comparison is only reached for flag actions and
`nargs = PARSER` occurs only on the (positional) subparsers action. -/
def maxPositive (max : Arity) : Bool :=
  match max with
  | .fin n => 0 < n
  | .inf => true
  | .nonInt => true

/-- A prompt_toolkit `Completion` as produced by the completer. -/
structure Completion : Type where
  text : String
  start_position : Int
  display : String
  display_meta : Option String
deriving DecidableEq, Repr

/-- Truthiness of `action.help` (`None` and `""` are falsy). -/
def helpTruthy : HelpVal → Bool
  | .noHelp => false
  | .suppress => true
  | .text s => !(s == "")

/-- The string a truthy `action.help` renders as in an f-string. -/
def helpStr : HelpVal → String
  | .noHelp => ""
  | .suppress => "==SUPPRESS=="
  | .text s => s

/-- `display_meta=action.help if action.help else None` in
`_get_flag_completions`. -/
def helpMeta (h : HelpVal) : Option String :=
  if helpTruthy h then some (helpStr h) else none

/-- The `display_meta` rendered by `_get_arg_completions`. -/
def argMeta (a : Action) : String :=
  if helpTruthy a.help then "[" ++ a.dest ++ "] - " ++ helpStr a.help
  else "[" ++ a.dest ++ "]"

/-- `ArgparseCompleter._get_flag_completions`. -/
def flagCompletions (p : Parser) (text : String) (matched : List String)
    (sp : Int) : List Completion :=
  (flagPairs p).filterMap (fun fa =>
    if matched.contains fa.1 then none
    else if (fa.2.help != HelpVal.suppress) && pyStartsWith fa.1 text then
      some ⟨fa.1, sp, fa.1, helpMeta fa.2.help⟩
    else none)

/-- `ArgparseCompleter._get_arg_completions`. -/
def argCompletions (text : String) (s : ArgState)
    (consumed : String → List String) (sp : Int) : List Completion :=
  match effectiveChoices s.action with
  | none => []
  | some cs =>
    let used := consumed s.action.dest
    cs.filterMap (fun c =>
      if pyStartsWith c text && !(used.contains c) then
        some ⟨c, sp, c, some (argMeta s.action)⟩
      else none)

/-- The mutable state of one `_get_completion_texts` invocation. -/
@[ext]
structure LoopState : Type where
  remaining_positionals : List Action
  skip_remaining_flags : Bool
  pos_arg_state : Option ArgState
  flag_arg_state : Option ArgState
  matched_flags : List String
  consumed : String → List String

/-- The state as initialised at the top of `_get_completion_texts`. -/
def initState (p : Parser) : LoopState :=
  { remaining_positionals := positionals p, skip_remaining_flags := false,
    pos_arg_state := none, flag_arg_state := none, matched_flags := [],
    consumed := fun _ => [] }

/-- `_consume_argument`'s effect on `consumed_arg_values`
(`setdefault` + `append`, on a dict read only through `.get(dest, [])`). -/
def updateConsumed (m : String → List String) (dest token : String) :
    String → List String :=
  fun d => if d = dest then m d ++ [token] else m d

/-- `consumed_arg_values[action.dest] = []`. -/
def resetConsumed (m : String → List String) (dest : String) :
    String → List String :=
  fun d => if d = dest then [] else m d

/-- Result of processing one prefix token: keep looping with a new state,
abort with an empty completion result (a bare `return` in the generator), or
delegate to a sub-parser (`yield from` + `return` on the nested completer). -/
inductive StepRes : Type where
  | cont (st : LoopState)
  | halt
  | descendTo (p' : Parser)

/-- `remaining_positionals[0].nargs == argparse.REMAINDER` (guarded by the
queue being non-empty). -/
def nextIsRemainder (l : List Action) : Bool :=
  match l.head? with
  | some a => a.nargs == .remainder
  | none => false

/-- The `if pos_arg_state:` consumption at the end of the positional branch
of the token loop. -/
def consumePos (st : LoopState) (token : String) : StepRes :=
  match st.pos_arg_state with
  | none => .cont st
  | some ps =>
    let ps' := ps.bump
    let consumed' := updateConsumed st.consumed ps.action.dest token
    if ps'.is_remainder then
      .cont { st with pos_arg_state := some ps', consumed := consumed',
                      skip_remaining_flags := true }
    else if reachedMax ps'.count ps'.max then
      .cont { st with pos_arg_state := none, consumed := consumed',
                      skip_remaining_flags :=
                        if nextIsRemainder st.remaining_positionals then true
                        else st.skip_remaining_flags }
    else
      .cont { st with pos_arg_state := some ps', consumed := consumed' }

/-- The final `else:` branch of the token loop: pop the next positional if
needed — recursing into a sub-parser when it is the subparsers action (the
source compares the popped action with `self._subcommand_action` by identity;
argparse admits at most one subparsers action per parser, so the test is
equivalent to the popped action carrying a dispatch table) — then consume the
token into the active positional state. -/
def stepPositional (st : LoopState) (token : String) : StepRes :=
  match st.pos_arg_state, st.remaining_positionals with
  | none, a :: ps =>
    match a.sub with
    | some tbl =>
      match lookupSub token tbl with
      | some p' => .descendTo p'
      | none => .halt
    | none =>
      consumePos { st with remaining_positionals := ps,
                           pos_arg_state := some (mkArgState a) } token
  | _, _ => consumePos st token

/-- The `if self._looks_like_flag(token) and not skip_remaining_flags:`
branch body (flag resolution). -/
def stepFlagToken (p : Parser) (st : LoopState) (token : String) : StepRes :=
  if minUnmetOpt st.flag_arg_state then .halt
  else
    let st1 := { st with flag_arg_state := none }
    let action? : Option Action :=
      match flagToAction p token with
      | some a => some a
      | none =>
        if p.allow_abbrev then
          match (flags p).filter (fun f => pyStartsWith f token) with
          | [f] => flagToAction p f
          | _ => none
        else none
    match action? with
    | none => .cont st1
    | some a =>
      let st2 :=
        if a.appendLike then st1
        else { st1 with matched_flags := st1.matched_flags ++ a.option_strings,
                        consumed := resetConsumed st1.consumed a.dest }
      let ns := mkArgState a
      if maxPositive ns.max then
        .cont { st2 with flag_arg_state := some ns,
                         skip_remaining_flags := ns.is_remainder }
      else .cont st2

/-- The token-loop branches from the `elif token == '--'` test downwards
(reached when neither remainder branch fired). -/
def runStepC (p : Parser) (st : LoopState) (token : String) : StepRes :=
  if token = "--" ∧ st.skip_remaining_flags = false then
    if minUnmetOpt st.flag_arg_state then .halt
    else .cont { st with flag_arg_state := none, skip_remaining_flags := true }
  else if looksLikeFlag p token = true ∧ st.skip_remaining_flags = false then
    stepFlagToken p st token
  else
    match st.flag_arg_state with
    | some fs =>
      let fs' := fs.bump
      .cont { st with
        flag_arg_state := if reachedMax fs'.count fs'.max then none else some fs',
        consumed := updateConsumed st.consumed fs.action.dest token }
    | none => stepPositional st token

/-- The flag-remainder branch (`if flag_arg_state and
flag_arg_state.is_remainder:`) of the token loop, else `runStepC`. -/
def runStepB (p : Parser) (st : LoopState) (token : String) : StepRes :=
  match st.flag_arg_state with
  | some fs =>
    if fs.is_remainder then
      if token = "--" then .cont { st with flag_arg_state := none }
      else .cont { st with flag_arg_state := some fs.bump,
                           consumed := updateConsumed st.consumed fs.action.dest token }
    else runStepC p st token
  | none => runStepC p st token

/-- Processing of one token from `tokens[:-1]` against the current state:
the positional-remainder branch first, then `runStepB`. -/
def runStep (p : Parser) (st : LoopState) (token : String) : StepRes :=
  match st.pos_arg_state with
  | some ps =>
    if ps.is_remainder then
      .cont { st with pos_arg_state := some ps.bump,
                      consumed := updateConsumed st.consumed ps.action.dest token }
    else runStepB p st token
  | none => runStepB p st token

/-- Outcome of replaying all of `tokens[:-1]` at one grammar level. -/
inductive LevelResult : Type where
  | empty
  | finish (st : LoopState)
  | descend (p' : Parser) (rest : List String)

/-- The `for token in tokens[:-1]` loop of `_get_completion_texts` at one
grammar level.  `pending` is the remaining token list including the final
(partial) token, so iteration stops when at most one token is left. -/
def runLevel (p : Parser) : List String → LoopState → LevelResult
  | [], st => .finish st
  | token :: rest, st =>
    match rest with
    | [] => .finish st
    | _ :: _ =>
      match runStep p st token with
      | .cont st' => runLevel p rest st'
      | .halt => .empty
      | .descendTo p' => .descend p' rest

/-- The completion of the final token (`# Complete last token` in
`_get_completion_texts`). -/
def completeLast (p : Parser) (text : String) (sp : Int) (st : LoopState) :
    List Completion :=
  if looksLikeFlag p text = true ∧ st.skip_remaining_flags = false then
    if minUnmetOpt st.flag_arg_state then []
    else flagCompletions p text st.matched_flags sp
  else
    match st.flag_arg_state with
    | some fs => argCompletions text fs st.consumed sp
    | none =>
      match st.pos_arg_state, st.remaining_positionals with
      | some ps, _ => argCompletions text ps st.consumed sp
      | none, a :: _ => argCompletions text (mkArgState a) st.consumed sp
      | none, [] =>
        if st.skip_remaining_flags = false ∧
            (singlePrefixChar p text = true ∨ st.remaining_positionals.isEmpty = true) then
          flagCompletions p text st.matched_flags sp
        else []

/-- `_get_completion_texts` with explicit recursion fuel.  The recursion into
a nested grammar (`yield from completer._get_completion_texts(...)`) becomes a
structurally smaller call; fuel `tokens.length + 1` always suffices because
each delegation strictly shortens the token list
(`runLevel_descend_length`). -/
def getCompletionTextsF : Nat → Parser → String → Int → List String →
    List Completion
  | 0, _, _, _, _ => []
  | fuel + 1, p, text, sp, tokens =>
    match runLevel p tokens (initState p) with
    | .empty => []
    | .finish st => completeLast p text sp st
    | .descend p' rest => getCompletionTextsF fuel p' text sp rest

/-- `ArgparseCompleter._get_completion_texts(text, ..., tokens, start_position)`:
replay `tokens[:-1]`, then complete the final token `text`. -/
def getCompletionTexts (p : Parser) (text : String) (sp : Int)
    (tokens : List String) : List Completion :=
  getCompletionTextsF (tokens.length + 1) p text sp tokens

/-- The engine's behaviour from an arbitrary mid-line replay state: run the
remaining loop, then either return empty, complete the final token, or
delegate to the nested grammar's engine. -/
def completeFrom (p : Parser) (text : String) (sp : Int) (st : LoopState)
    (pending : List String) : List Completion :=
  match runLevel p pending st with
  | .empty => []
  | .finish st' => completeLast p text sp st'
  | .descend p' rest => getCompletionTexts p' text sp rest

/-! ### The tokenizer front-end (`ArgparseCompleter.get_completions`) -/

/-- The state of `shlex` (`posix=False`, `whitespace_split=True`, no
commenters, no punctuation chars): between tokens, inside a word, or inside a
quoted section opened at the start of a token by `q`. -/
inductive ShState : Type where
  | ws
  | word
  | inQuote (q : Char)
deriving DecidableEq, Repr

/-- `c in shlex.quotes`. -/
def shQuote (c : Char) : Bool :=
  c == '"' || c == '\x27'

/-- Single pass of `shlex.split(s, posix=False)` (with `whitespace_split`
set and comments disabled, as `shlex.split` configures it): quotes are kept
in the tokens, a quote opens a quoted section only at the start of a token,
a closing quote ends the token, and end of input inside a quoted section is
the `ValueError("No closing quotation")`, modelled as `none`. -/
def shlexRun : List Char → ShState → List Char → List String →
    Option (List String)
  | [], .ws, _, acc => some acc
  | [], .word, tok, acc => some (acc ++ [String.mk tok])
  | [], .inQuote _, _, _ => none
  | c :: cs, .ws, _, acc =>
    if shWS c then shlexRun cs .ws [] acc
    else if shQuote c then shlexRun cs (.inQuote c) [c] acc
    else shlexRun cs .word [c] acc
  | c :: cs, .inQuote q, tok, acc =>
    if c = q then shlexRun cs .ws [] (acc ++ [String.mk (tok ++ [c])])
    else shlexRun cs (.inQuote q) (tok ++ [c]) acc
  | c :: cs, .word, tok, acc =>
    if shWS c then shlexRun cs .ws [] (acc ++ [String.mk tok])
    else shlexRun cs .word (tok ++ [c]) acc

/-- `shlex.split(s, posix=False)`. -/
def shlexSplit (s : String) : Option (List String) :=
  shlexRun s.data .ws [] []

/-- Any quote state reachable by `shlexRun` was opened by one of the two
quote characters. -/
def shStateOK (st : ShState) : Prop :=
  ∀ q, st = .inQuote q → q = '"' ∨ q = '\x27'

/-- Python `str.split()` with no arguments (the last-resort fallback). -/
def whitespaceSplit (s : String) : List String :=
  (s.split (fun c => shWS c)).filter (fun t => !(t == ""))

/-- The `for quote in ('', '"', "'")` retry ladder of `get_completions`,
falling back to whitespace tokenization if every attempt raises. -/
def tokenizeLadder (text : String) : List String :=
  match shlexSplit text with
  | some t => t
  | none =>
    match shlexSplit (text ++ "\"") with
    | some t => t
    | none =>
      match shlexSplit (text ++ "\x27") with
      | some t => t
      | none => whitespaceSplit text

/-- `text.endswith(' ')`. -/
def endsWithSpace (s : String) : Bool :=
  s.data.getLast? == some ' '

/-- `ArgparseCompleter.get_completions` reduced to its text input: tokenize
the text before the cursor, add an empty token when the text ends with a
space, and complete the final token.  (`line`, `begidx` and `endidx` are
threaded through the Python code but never read.) -/
def getCompletions (p : Parser) (text : String) : List Completion :=
  let tokens0 := tokenizeLadder text
  let tokens := if endsWithSpace text then tokens0 ++ [""] else tokens0
  let ttc := (tokens.getLast?).getD ""
  let sp : Int := -(ttc.length : Int)
  getCompletionTexts p ttc sp tokens

/-! ### The dispatch chain (`Command.invoke_from_ns`, `command.py`)

A `Command` is reduced to the data the dispatch loop reads: an identifier for
its handler function and its `_parent` link.  Handlers are supplied through an
environment mapping the identifier to a function of the accumulator
(`ns.__cmd_result__`), so that distinct command objects stay distinguishable
while the chain walk remains decidable. -/

inductive Cmd : Type where
  | mk (hid : Nat) (parent : Option Cmd)

def Cmd.hid : Cmd → Nat
  | .mk v _ => v

def Cmd.parent : Cmd → Option Cmd
  | .mk _ v => v

def Cmd.decEq : (a b : Cmd) → Decidable (a = b)
  | .mk h1 none, .mk h2 none =>
    if h : h1 = h2 then isTrue (by rw [h])
    else isFalse (fun he => by injection he with e1 e2; exact h e1)
  | .mk _ none, .mk _ (some _) =>
    isFalse (fun he => by injection he with e1 e2; exact Option.noConfusion e2)
  | .mk _ (some _), .mk _ none =>
    isFalse (fun he => by injection he with e1 e2; exact Option.noConfusion e2)
  | .mk h1 (some q1), .mk h2 (some q2) =>
    match Nat.decEq h1 h2, Cmd.decEq q1 q2 with
    | isTrue hh, isTrue hq => isTrue (by rw [hh, hq])
    | isFalse hh, _ =>
      isFalse (fun he => by injection he with e1 e2; exact hh e1)
    | isTrue _, isFalse hq =>
      isFalse (fun he => by injection he with e1 e2; injection e2 with e3; exact hq e3)

instance : DecidableEq Cmd := Cmd.decEq

/-- The chain-building loop of `invoke_from_ns`: start from the command
resolved by the parse (`ns.__cmd_ins__`) and append `_parent` links while a
parent exists and the root (`self`) has not been reached. -/
def buildChain (root : Cmd) : Cmd → List Cmd
  | .mk h none => [.mk h none]
  | .mk h (some par) =>
    if Cmd.mk h (some par) = root then [.mk h (some par)]
    else .mk h (some par) :: buildChain root par

/-- The `while cmd_chain: cmd_ins = cmd_chain.pop(); ...` loop: repeatedly
pop the *last* element of the chain (the outermost command), store the running
result into the accumulator slot, and overwrite the result with the handler's
return value. -/
def popInvoke {α : Type} (H : Nat → Option α → α) (chain : List Cmd)
    (ret : Option α) : Option α :=
  match h : chain.getLast? with
  | none => ret
  | some c => popInvoke H chain.dropLast (some (H c.hid ret))
termination_by chain.length
decreasing_by
  cases chain with
  | nil => simp at h
  | cons a l => simp [List.dropLast]

/-- `Command.invoke_from_ns`: build the chain from the namespace's resolved
command up to `self`, assert that the walk ended at `self` (a failed `assert`
raises `AssertionError`, modelled as the error branch), then run the pop
loop with the accumulator seeded by `None`. -/
def invoke_from_ns {α : Type} (H : Nat → Option α → α) (root ns_cmd : Cmd) :
    Except String (Option α) :=
  let chain := buildChain root ns_cmd
  if chain.getLast? = some root then .ok (popInvoke H chain none)
  else .error "Command chain is broken"

/-- Accumulator threading over a root-first handler list: fold the handlers
left to right, feeding each the previous handler's return value. -/
def threadAccum {α : Type} (H : Nat → Option α → α) (cmds : List Cmd)
    (acc : Option α) : Option α :=
  cmds.foldl (fun a c => some (H c.hid a)) acc

/-- The same pop loop with handlers that may raise and may have side effects:
a handler maps a store and the accumulator to either an exception or a result
paired with the updated store.  The loop performs no handling of its own —
this is the store-passing embedding of the Python loop, in which a raise
simply escapes `invoke_from_ns`, carrying whatever side effects already
happened. -/
def popInvokeE {σ α ε : Type} (H : Nat → σ → Option α → Except ε (α × σ))
    (chain : List Cmd) (s : σ) (ret : Option α) : Except (ε × σ) (Option α × σ) :=
  match h : chain.getLast? with
  | none => .ok (ret, s)
  | some c =>
    match H c.hid s ret with
    | .error e => .error (e, s)
    | .ok (r, s') => popInvokeE H chain.dropLast s' (some r)
termination_by chain.length
decreasing_by
  cases chain with
  | nil => simp at h
  | cons a l => simp [List.dropLast]

/-! ### Spec-side candidate descriptions

These definitions follow the specification's wording ("the subset of choices
starting with `partial_token` and not already present in that slot's
`consumed_values`", "every alias ... in declared order") and are compared
with the engine's output in the claim theorems. -/

/-- The spec's description of choice completion for an active slot: the
declared choices that start with the partial token minus the values recorded
as consumed for the slot, in declared order. -/
def specChoiceCandidates (text : String) (s : ArgState)
    (consumed : String → List String) (sp : Int) : List Completion :=
  match effectiveChoices s.action with
  | none => []
  | some cs =>
    (cs.filter (fun c => pyStartsWith c text && !((consumed s.action.dest).contains c))).map
      (fun c => ⟨c, sp, c, some (argMeta s.action)⟩)

/-- The spec's description of completing the empty token in a flags-only
grammar: one candidate per declared alias, in declared order — restricted, as
the code requires, to aliases whose action's help is not suppressed. -/
def specFlagCandidates (p : Parser) (sp : Int) : List Completion :=
  ((flagPairs p).filter (fun fa => fa.2.help != HelpVal.suppress)).map
    (fun fa => ⟨fa.1, sp, fa.1, helpMeta fa.2.help⟩)

/-- Projection used to observe the consumed-value record of a finished
replay. -/
def resultConsumed (r : LevelResult) (d : String) : Option (List String) :=
  match r with
  | .finish st => some (st.consumed d)
  | _ => none

/-! ### Concrete example grammars (used by witnesses and counterexamples) -/

/-- A sub-grammar: flag `--cmd2-opt`, positional `cmd2_arg` with choices. -/
def exSubGrammar : Parser := .mk [
  .mk ["--cmd2-opt"] "cmd2_opt" .nargsNone none none (.text "Command 2 option") false none,
  .mk [] "cmd2_arg" .nargsNone none (some ["a", "b", "c"]) (.text "Command 2 argument") false none
] true ['-'] false

/-- A root grammar whose single positional is a dispatch (subparsers) slot
with table `{"cmd2": exSubGrammar}`. -/
def exDispatch : Parser := .mk [
  .mk [] "command" .parserMulti none none .noHelp false (some [("cmd2", exSubGrammar)])
] true ['-'] false

/-- A repeatable (append-action) flag `-a` with choices `{x, y}`. -/
def exAppendFlag : Parser := .mk [
  .mk ["-a"] "a" .nargsNone none (some ["x", "y"]) .noHelp true none
] true ['-'] false

/-- A non-repeatable (store-action) flag `-c` with choices `{x, y}`. -/
def exChoiceFlag : Parser := .mk [
  .mk ["-c"] "c" .nargsNone none (some ["x", "y"]) .noHelp false none
] true ['-'] false

/-- A flag-bound remainder slot `--r` followed by a positional with
choices `{p1}`. -/
def exRemFlag : Parser := .mk [
  .mk ["--r"] "r" .remainder none none .noHelp false none,
  .mk [] "pos" .nargsNone none (some ["p1"]) .noHelp false none
] true ['-'] false

/-- A positional remainder slot. -/
def exRemPos : Parser := .mk [
  .mk [] "rest" .remainder none none .noHelp false none
] true ['-'] false

/-- Flags `--foo`, `--fob` (for which `--fo` is an ambiguous abbreviation)
and a two-token positional with choices `{a, b}`. -/
def exAmbig : Parser := .mk [
  .mk ["--foo"] "foo" .nargsNone none none .noHelp false none,
  .mk ["--fob"] "fob" .nargsNone none none .noHelp false none,
  .mk [] "pos" (.exact 2) none (some ["a", "b"]) .noHelp false none
] true ['-'] false

/-- Only the two abbreviation-ambiguous flags, no positionals. -/
def exAmbigFlagsOnly : Parser := .mk [
  .mk ["--foo"] "foo" .nargsNone none none .noHelp false none,
  .mk ["--fob"] "fob" .nargsNone none none .noHelp false none
] true ['-'] false

/-- Flags-only grammar where `--b`'s help is `argparse.SUPPRESS`. -/
def exSuppressed : Parser := .mk [
  .mk ["--a"] "a" (.exact 0) none none .noHelp false none,
  .mk ["--b"] "b" (.exact 0) none none .suppress false none
] true ['-'] false

/-- Flags-only grammar with two visible flags. -/
def exFlagsOnly : Parser := .mk [
  .mk ["-v", "--verbose"] "verbose" (.exact 0) none none (.text "Verbose") false none,
  .mk ["--level"] "level" .nargsNone none none .noHelp false none
] true ['-'] false

/-- A flag `--x` requiring at least one value (`nargs='+'`). -/
def exMinArity : Parser := .mk [
  .mk ["--x"] "x" .oneOrMore none (some ["v1"]) .noHelp false none
] true ['-'] false

/-! ## Helper theorems -/

/-- Each recursive delegation of `_get_completion_texts` to a sub-parser hands
over `tokens[token_index + 1:]`, a strictly shorter list. -/
theorem runLevel_descend_length (p : Parser) (st : LoopState)
    (pending : List String) (p' : Parser) (rest : List String)
    (h : runLevel p pending st = .descend p' rest) :
    rest.length < pending.length := by
  induction pending generalizing st with
  | nil => simp [runLevel] at h
  | cons tok tl ih =>
    match tl with
    | [] => simp [runLevel] at h
    | t2 :: tl' =>
      rw [runLevel] at h
      cases hs : runStep p st tok with
      | cont st' =>
        rw [hs] at h
        exact Nat.lt_trans (ih st' h) (Nat.lt_succ_self _)
      | halt => rw [hs] at h; exact absurd h (by simp)
      | descendTo q =>
        rw [hs] at h
        cases h
        exact Nat.lt_succ_self _

/-- The fuel argument is irrelevant as soon as it exceeds the token count. -/
theorem getCompletionTextsF_congr (f1 f2 : Nat) (p : Parser) (text : String)
    (sp : Int) (tokens : List String) (h1 : tokens.length < f1)
    (h2 : tokens.length < f2) :
    getCompletionTextsF f1 p text sp tokens =
      getCompletionTextsF f2 p text sp tokens := by
  induction f1 generalizing f2 p tokens with
  | zero => omega
  | succ g1 ih =>
    match f2, h2 with
    | g2 + 1, h2 =>
      rw [getCompletionTextsF, getCompletionTextsF]
      cases hr : runLevel p tokens (initState p) with
      | empty => rfl
      | finish st => rfl
      | descend p' rest =>
        have hlen := runLevel_descend_length _ _ _ _ _ hr
        exact ih g2 p' rest (by omega) (by omega)

theorem getCompletionTextsF_eq (fuel : Nat) (p : Parser) (text : String)
    (sp : Int) (tokens : List String) (h : tokens.length < fuel) :
    getCompletionTextsF fuel p text sp tokens =
      getCompletionTexts p text sp tokens :=
  getCompletionTextsF_congr fuel (tokens.length + 1) p text sp tokens h
    (Nat.lt_succ_self _)

/-- The engine entry point is `completeFrom` started at the initial state. -/
theorem getCompletionTexts_run (p : Parser) (text : String) (sp : Int)
    (tokens : List String) :
    getCompletionTexts p text sp tokens =
      completeFrom p text sp (initState p) tokens := by
  rw [getCompletionTexts, getCompletionTextsF, completeFrom]
  cases hr : runLevel p tokens (initState p) with
  | empty => rfl
  | finish st => rfl
  | descend p' rest =>
    exact getCompletionTextsF_eq _ _ _ _ _
      (runLevel_descend_length _ _ _ _ _ hr)

theorem popInvoke_nil {α : Type} (H : Nat → Option α → α) (ret : Option α) :
    popInvoke H [] ret = ret := by
  rw [popInvoke]
  split
  · rfl
  · rename_i c h
    exact absurd h (by simp)

theorem popInvoke_concat {α : Type} (H : Nat → Option α → α) (cs : List Cmd)
    (c : Cmd) (ret : Option α) :
    popInvoke H (cs ++ [c]) ret = popInvoke H cs (some (H c.hid ret)) := by
  rw [popInvoke]
  split
  · rename_i h
    rw [List.getLast?_concat] at h
    exact absurd h (by simp)
  · rename_i c' h
    rw [List.getLast?_concat] at h
    cases h
    rw [List.dropLast_concat]

theorem popInvoke_eq_threadAccum {α : Type} (H : Nat → Option α → α)
    (chain : List Cmd) (ret : Option α) :
    popInvoke H chain ret = threadAccum H chain.reverse ret := by
  induction chain using List.reverseRecOn generalizing ret with
  | nil => rw [popInvoke_nil]; rfl
  | append_singleton cs c ih =>
    rw [popInvoke_concat, ih]
    simp [threadAccum]

theorem popInvokeE_concat {σ α ε : Type}
    (H : Nat → σ → Option α → Except ε (α × σ)) (cs : List Cmd) (c : Cmd)
    (s : σ) (ret : Option α) :
    popInvokeE H (cs ++ [c]) s ret =
      match H c.hid s ret with
      | .error e => .error (e, s)
      | .ok (r, s') => popInvokeE H cs s' (some r) := by
  rw [popInvokeE]
  split
  · rename_i h
    rw [List.getLast?_concat] at h
    exact absurd h (by simp)
  · rename_i c' h
    rw [List.getLast?_concat] at h
    cases h
    rw [List.dropLast_concat]

/-- The chain-building walk always starts at the command it is given. -/
theorem buildChain_head (root c : Cmd) :
    ∃ tl, buildChain root c = c :: tl := by
  cases c with
  | mk h par =>
    cases par with
    | none => exact ⟨[], rfl⟩
    | some q =>
      rw [buildChain]
      by_cases he : Cmd.mk h (some q) = root
      · rw [if_pos he]; exact ⟨[], rfl⟩
      · rw [if_neg he]; exact ⟨buildChain root q, rfl⟩

/-- A `filterMap` whose function is a guarded `some` is a `filter` followed
by a `map`. -/
theorem filterMap_guard {α β : Type} (f : α → Bool) (g : α → β) :
    ∀ l : List α,
      (l.filterMap (fun x => if f x then some (g x) else none)) =
        (l.filter f).map g := by
  intro l
  induction l with
  | nil => rfl
  | cons a tl ih =>
    cases h : f a with
    | true => simp [List.filterMap_cons, List.filter_cons, h, ih]
    | false => simp [List.filterMap_cons, List.filter_cons, h, ih]

theorem pyStartsWith_empty (s : String) : pyStartsWith s "" = true := by
  unfold pyStartsWith
  rcases s with ⟨data⟩
  cases data <;> rfl

/-- `_get_arg_completions` computes exactly the spec's candidate set. -/
theorem argCompletions_eq_spec (text : String) (s : ArgState)
    (consumed : String → List String) (sp : Int) :
    argCompletions text s consumed sp = specChoiceCandidates text s consumed sp := by
  unfold argCompletions specChoiceCandidates
  cases effectiveChoices s.action with
  | none => rfl
  | some cs =>
    exact filterMap_guard
      (fun c => pyStartsWith c text && !((consumed s.action.dest).contains c))
      (fun c => Completion.mk c sp c (some (argMeta s.action))) cs

/-- With no matched flags and an empty partial token,
`_get_flag_completions` lists every non-suppressed alias in declared
order. -/
theorem flagCompletions_empty_eq_spec (p : Parser) (sp : Int) :
    flagCompletions p "" [] sp = specFlagCandidates p sp := by
  unfold flagCompletions specFlagCandidates
  rw [← filterMap_guard (fun fa : String × Action => fa.2.help != HelpVal.suppress)
    (fun fa => Completion.mk fa.1 sp fa.1 (helpMeta fa.2.help)) (flagPairs p)]
  apply List.filterMap_congr
  intro fa _
  simp [pyStartsWith_empty]

/-! ## Claim theorems -/

/-- C4: For every dispatch chain, the handlers run outermost (root) first —
`buildChain` lists the resolved command first and the root last, and the pop
loop processes the list from its end — with the accumulator seeded by `None`
before the first handler and overwritten with each handler's return value
before the next (`threadAccum` is exactly this left fold over the root-first
order), and the whole dispatch returns the innermost (leaf) handler's return
value. -/
theorem claim_C4_dispatch_order {α : Type} (H : Nat → Option α → α)
    (root leaf : Cmd)
    (hvalid : (buildChain root leaf).getLast? = some root) :
    invoke_from_ns H root leaf =
      .ok (threadAccum H (buildChain root leaf).reverse none) ∧
    invoke_from_ns H root leaf =
      .ok (some (H leaf.hid
        (threadAccum H ((buildChain root leaf).reverse).dropLast none))) := by
  have h1 : invoke_from_ns H root leaf =
      .ok (popInvoke H (buildChain root leaf) none) := by
    simp only [invoke_from_ns]
    rw [if_pos hvalid]
  obtain ⟨tl, hc⟩ := buildChain_head root leaf
  refine ⟨by rw [h1, popInvoke_eq_threadAccum], ?_⟩
  rw [h1, popInvoke_eq_threadAccum, hc, List.reverse_cons, List.dropLast_concat]
  unfold threadAccum
  rw [List.foldl_append]
  rfl

/-- Witness for C4: a two-level chain `[root, sub]` with
`H i acc = 10 * i + acc.getD 7`.  The chain built from the leaf is
`[leaf, root]`, the accumulator threading gives `H 1 none = 17` for the root
and `H 2 (some 17) = 37` for the leaf, and the dispatch returns the leaf's
value. -/
theorem claim_C4_witness :
    (buildChain (Cmd.mk 1 none) (Cmd.mk 2 (some (Cmd.mk 1 none)))).getLast? =
        some (Cmd.mk 1 none) ∧
    invoke_from_ns (fun i acc => 10 * i + acc.getD 7) (Cmd.mk 1 none)
        (Cmd.mk 2 (some (Cmd.mk 1 none))) =
      .ok (threadAccum (fun i acc => 10 * i + acc.getD 7)
        (buildChain (Cmd.mk 1 none) (Cmd.mk 2 (some (Cmd.mk 1 none)))).reverse
        none) ∧
    threadAccum (fun i acc => 10 * i + acc.getD 7)
        (buildChain (Cmd.mk 1 none) (Cmd.mk 2 (some (Cmd.mk 1 none)))).reverse
        none = some 37 :=
  ⟨by decide,
   (claim_C4_dispatch_order (fun i acc => 10 * i + acc.getD 7)
     (Cmd.mk 1 none) (Cmd.mk 2 (some (Cmd.mk 1 none))) (by decide)).1,
   by decide⟩

/-- C5: if the next handler to run raises, the dispatch loop stops at once:
the result is `.error (e, s)` with the raised value `e` untranslated and the
store `s` exactly as the failed handler received it (earlier handlers'
effects are kept, nothing is rolled back), and the not-yet-run inner part of
the chain (`inner`, universally quantified) is never consulted.  The second
conjunct shows the contrasting success step: on `.ok` the loop continues
into the rest of the chain with the threaded result and store. -/
theorem claim_C5_dispatch_error {σ α ε : Type}
    (H : Nat → σ → Option α → Except ε (α × σ)) (inner : List Cmd) (c : Cmd)
    (s : σ) (ret : Option α) :
    (∀ e, H c.hid s ret = .error e →
      popInvokeE H (inner ++ [c]) s ret = .error (e, s)) ∧
    (∀ r s', H c.hid s ret = .ok (r, s') →
      popInvokeE H (inner ++ [c]) s ret = popInvokeE H inner s' (some r)) := by
  constructor
  · intro e he
    rw [popInvokeE_concat, he]
  · intro r s' hok
    rw [popInvokeE_concat, hok]

/-- Witness for C5: a two-command chain whose outer handler (id 1) raises
`"boom"` at store `5`; the dispatch result is exactly
`.error ("boom", 5)` no matter what the inner handler would do. -/
theorem claim_C5_witness :
    (fun (i : Nat) (s : Nat) (acc : Option Nat) =>
        if i = 1 then (Except.error "boom" : Except String (Nat × Nat))
        else .ok (acc.getD 0, s + 1)) 1 5 none = .error "boom" ∧
    popInvokeE
      (fun (i : Nat) (s : Nat) (acc : Option Nat) =>
        if i = 1 then (Except.error "boom" : Except String (Nat × Nat))
        else .ok (acc.getD 0, s + 1))
      ([Cmd.mk 2 (some (Cmd.mk 1 none))] ++ [Cmd.mk 1 none]) 5 none =
      .error ("boom", 5) :=
  ⟨rfl,
   (claim_C5_dispatch_error
     (fun (i : Nat) (s : Nat) (acc : Option Nat) =>
       if i = 1 then (Except.error "boom" : Except String (Nat × Nat))
       else .ok (acc.getD 0, s + 1))
     [Cmd.mk 2 (some (Cmd.mk 1 none))] (Cmd.mk 1 none) 5 none).1 "boom" rfl⟩

/-- C1: when the next unconsumed positional slot is the dispatch slot (no
positional or flag state is active, so the token reaches the positional
branch) and the prefix token is not routed to a flag branch, a token equal to
a dispatch key makes the engine delegate the whole remaining line to the
nested grammar's engine — its result is returned directly, with no
root-grammar candidates mixed in — and a token matching no key yields the
empty sequence. -/
theorem claim_C1_subcommand_delegation
    (p : Parser) (text : String) (sp : Int) (st : LoopState)
    (tok : String) (rest : List String) (a : Action) (ps : List Action)
    (tbl : List (String × Parser))
    (hrest : rest ≠ [])
    (hpos : st.pos_arg_state = none)
    (hflag : st.flag_arg_state = none)
    (hrem : st.remaining_positionals = a :: ps)
    (hsub : a.sub = some tbl)
    (hflow : st.skip_remaining_flags = true ∨
      (tok ≠ "--" ∧ looksLikeFlag p tok = false)) :
    (∀ p', lookupSub tok tbl = some p' →
      completeFrom p text sp st (tok :: rest) =
        getCompletionTexts p' text sp rest) ∧
    (lookupSub tok tbl = none →
      completeFrom p text sp st (tok :: rest) = []) := by
  obtain ⟨r, rs, hr⟩ : ∃ r rs, rest = r :: rs := by
    cases rest with
    | nil => exact absurd rfl hrest
    | cons r rs => exact ⟨r, rs, rfl⟩
  subst hr
  have hstep : runStep p st tok =
      (match lookupSub tok tbl with
       | some p' => StepRes.descendTo p'
       | none => StepRes.halt) := by
    rcases hflow with hskip | ⟨htok, hlf⟩
    · simp [runStep, runStepB, runStepC, stepPositional, hpos, hflag, hrem,
        hsub, hskip]
    · simp [runStep, runStepB, runStepC, stepPositional, hpos, hflag, hrem,
        hsub, htok, hlf]
  have hrun : runLevel p (tok :: r :: rs) st =
      (match lookupSub tok tbl with
       | some p' => LevelResult.descend p' (r :: rs)
       | none => LevelResult.empty) := by
    simp only [runLevel, hstep]
    cases lookupSub tok tbl <;> rfl
  constructor
  · intro p' hlook
    unfold completeFrom
    rw [hrun, hlook]
  · intro hlook
    unfold completeFrom
    rw [hrun, hlook]

/-- Witness for C1: the concrete dispatch grammar `exDispatch` with table
`{"cmd2": exSubGrammar}`; completing the line `cmd2 ` delegates to
`exSubGrammar`, whose own completion of the empty token is its positional's
choices. -/
theorem claim_C1_witness :
    ([""] : List String) ≠ [] ∧
    lookupSub "cmd2" [("cmd2", exSubGrammar)] = some exSubGrammar ∧
    completeFrom exDispatch "" 0 (initState exDispatch) ["cmd2", ""] =
      getCompletionTexts exSubGrammar "" 0 [""] ∧
    (getCompletionTexts exSubGrammar "" 0 [""]).map Completion.text =
      ["a", "b", "c"] :=
  ⟨by decide, rfl,
   (claim_C1_subcommand_delegation exDispatch "" 0 (initState exDispatch)
     "cmd2" [""]
     (Action.mk [] "command" .parserMulti none none .noHelp false
       (some [("cmd2", exSubGrammar)]))
     [] [("cmd2", exSubGrammar)]
     (by decide) rfl rfl rfl rfl
     (Or.inr ⟨by decide, by decide⟩)).1 exSubGrammar rfl,
   by decide⟩

/-- C2 counterexample: the claim says that for a repeatable slot
already-consumed values are *not* excluded from choice completion.  On the
repeatable (append-action) flag `-a` of `exAppendFlag` with choices
`{x, y}`, after `-a x -a ` the engine completes the empty token with `["y"]`
only: the consumed `x` (accumulated across occurrences, never reset for an
append action) *is* excluded, so the claim's predicted `["x", "y"]` is
wrong. -/
theorem claim_C2_counterexample :
    (getCompletionTexts exAppendFlag "" 0 ["-a", "x", "-a", ""]).map
        Completion.text = ["y"] ∧
    (getCompletionTexts exAppendFlag "" 0 ["-a", "x", "-a", ""]).map
        Completion.text ≠ ["x", "y"] :=
  ⟨by decide, by decide⟩

/-- C2 (amended): completing a partial token while a slot (flag-bound or
positional) is the active value acceptor yields exactly the slot's choices
that start with the token minus the values currently recorded as consumed for
the slot — for repeatable and non-repeatable slots alike.  (What differs
between the two is the upstream bookkeeping of the record: a non-repeatable
flag's record is reset at each new occurrence of the flag, while a
repeatable flag's accumulates; see C9.) -/
theorem claim_C2_choice_completion (p : Parser) (text : String) (sp : Int)
    (st : LoopState)
    (hnoflag : looksLikeFlag p text = false ∨ st.skip_remaining_flags = true) :
    (∀ fs, st.flag_arg_state = some fs →
      completeLast p text sp st = specChoiceCandidates text fs st.consumed sp) ∧
    (∀ qs, st.flag_arg_state = none → st.pos_arg_state = some qs →
      completeLast p text sp st = specChoiceCandidates text qs st.consumed sp) := by
  have hcond : ¬(looksLikeFlag p text = true ∧ st.skip_remaining_flags = false) := by
    rcases hnoflag with h | h <;> simp [h]
  constructor
  · intro fs hfs
    unfold completeLast
    rw [if_neg hcond, hfs]
    exact argCompletions_eq_spec text fs st.consumed sp
  · intro qs hflag hqs
    unfold completeLast
    rw [if_neg hcond, hflag, hqs]
    exact argCompletions_eq_spec text qs st.consumed sp

/-- Witness for C2: the non-repeatable flag `-c` of `exChoiceFlag` active
with nothing consumed; the completion of the empty token is exactly the
spec's candidate set, here both choices. -/
theorem claim_C2_witness :
    looksLikeFlag exChoiceFlag "" = false ∧
    completeLast exChoiceFlag "" 0
      { remaining_positionals := [], skip_remaining_flags := false,
        pos_arg_state := none,
        flag_arg_state := some (mkArgState
          (Action.mk ["-c"] "c" .nargsNone none (some ["x", "y"]) .noHelp
            false none)),
        matched_flags := ["-c"], consumed := fun _ => [] } =
      specChoiceCandidates ""
        (mkArgState (Action.mk ["-c"] "c" .nargsNone none (some ["x", "y"])
          .noHelp false none)) (fun _ => []) 0 ∧
    (specChoiceCandidates ""
        (mkArgState (Action.mk ["-c"] "c" .nargsNone none (some ["x", "y"])
          .noHelp false none)) (fun _ => []) 0).map Completion.text =
      ["x", "y"] :=
  ⟨by decide,
   (claim_C2_choice_completion exChoiceFlag "" 0
     { remaining_positionals := [], skip_remaining_flags := false,
       pos_arg_state := none,
       flag_arg_state := some (mkArgState
         (Action.mk ["-c"] "c" .nargsNone none (some ["x", "y"]) .noHelp
           false none)),
       matched_flags := ["-c"], consumed := fun _ => [] }
     (Or.inl (by decide))).1 _ rfl,
   by decide⟩

/-- Helper for C3: a positional remainder slot absorbs every prefix token
unconditionally — the state after the loop is the original state with the
slot's count advanced by one per token and all tokens appended to its
consumed record; nothing else (skip flag, matched flags, queue) changes and
no token is ever routed to a flag branch. -/
theorem posRemainderAbsorb (p : Parser) (pre : List String) :
    ∀ (st : LoopState) (qs : ArgState) (last : String),
      st.pos_arg_state = some qs → qs.is_remainder = true →
      runLevel p (pre ++ [last]) st = .finish
        { st with
          pos_arg_state := some { qs with count := qs.count + pre.length },
          consumed := fun d =>
            if d = qs.action.dest then st.consumed d ++ pre
            else st.consumed d } := by
  induction pre with
  | nil =>
    intro st qs last hps hrem
    have h1 : { qs with count := qs.count + ([] : List String).length } = qs := by
      cases qs
      simp
    have h2 : (fun d => if d = qs.action.dest
          then st.consumed d ++ ([] : List String) else st.consumed d) =
        st.consumed := by
      funext d
      by_cases h : d = qs.action.dest <;> simp [h]
    rw [h1, h2, ← hps]
    simp only [List.nil_append, runLevel]
  | cons t pre' ih =>
    intro st qs last hps hrem
    have hstep : runStep p st t = .cont
        { st with pos_arg_state := some qs.bump,
                  consumed := updateConsumed st.consumed qs.action.dest t } := by
      simp [runStep, hps, hrem]
    obtain ⟨a, b, hab⟩ : ∃ a b, pre' ++ [last] = a :: b := by
      cases pre' with
      | nil => exact ⟨last, [], rfl⟩
      | cons x xs => exact ⟨x, xs ++ [last], rfl⟩
    have hstepped : runLevel p ((t :: pre') ++ [last]) st =
        runLevel p (pre' ++ [last])
          { st with pos_arg_state := some qs.bump,
                    consumed := updateConsumed st.consumed qs.action.dest t } := by
      rw [List.cons_append, hab]
      simp only [runLevel, hstep]
    rw [hstepped, ih _ qs.bump last rfl hrem]
    congr 1
    refine LoopState.ext rfl rfl ?_ rfl rfl ?_
    · exact congrArg some
        (ArgState.ext rfl rfl rfl (by simp [ArgState.bump]; omega) rfl)
    · funext d
      by_cases h : d = qs.action.dest <;>
        simp [updateConsumed, ArgState.bump, h]

/-- C3 counterexample: the claim says a flag-bound remainder slot, once
active, consumes *every* later token including the end-of-flags literal
`--`.  On `exRemFlag` (remainder flag `--r`, then a positional with choices
`{p1}`), after `--r -- ` the slot's consumed record is empty — `--` was not
consumed, it terminated the slot — and the engine completes the empty token
with the positional's choices `["p1"]` rather than the empty result an
active choice-less remainder slot would produce. -/
theorem claim_C3_counterexample :
    resultConsumed (runLevel exRemFlag ["--r", "--", ""] (initState exRemFlag))
        "r" = some [] ∧
    (getCompletionTexts exRemFlag "" 0 ["--r", "--", ""]).map Completion.text =
      ["p1"] :=
  ⟨by decide, by decide⟩

/-- C3 (amended): once a *positional* remainder slot is active every
subsequent token before the cursor is consumed by it unconditionally —
including `--` and flag-like tokens — through the end of the line (first
conjunct, which fixes the whole final state).  Once a *flag-bound* remainder
slot is active, any token other than `--` is likewise consumed
unconditionally (second conjunct), but a bare `--` terminates the slot
without being consumed (third conjunct).  In both cases no token is
interpreted as a flag: the state evolution shown touches no flag
resolution. -/
theorem claim_C3_remainder_absorption (p : Parser) :
    (∀ (st : LoopState) (qs : ArgState) (pre : List String) (last : String),
      st.pos_arg_state = some qs → qs.is_remainder = true →
      runLevel p (pre ++ [last]) st = .finish
        { st with
          pos_arg_state := some { qs with count := qs.count + pre.length },
          consumed := fun d =>
            if d = qs.action.dest then st.consumed d ++ pre
            else st.consumed d }) ∧
    (∀ (st : LoopState) (fs : ArgState) (tok : String),
      (∀ q, st.pos_arg_state = some q → q.is_remainder = false) →
      st.flag_arg_state = some fs → fs.is_remainder = true → tok ≠ "--" →
      runStep p st tok = .cont
        { st with flag_arg_state := some fs.bump,
                  consumed := updateConsumed st.consumed fs.action.dest tok }) ∧
    (∀ (st : LoopState) (fs : ArgState),
      (∀ q, st.pos_arg_state = some q → q.is_remainder = false) →
      st.flag_arg_state = some fs → fs.is_remainder = true →
      runStep p st "--" = .cont { st with flag_arg_state := none }) := by
  refine ⟨fun st qs pre last hps hrem => posRemainderAbsorb p pre st qs last hps hrem,
    ?_, ?_⟩
  · intro st fs tok hposr hfs hrem htok
    cases hp : st.pos_arg_state with
    | none => simp [runStep, runStepB, hp, hfs, hrem, htok]
    | some q =>
      have := hposr q hp
      simp [runStep, runStepB, hp, this, hfs, hrem, htok]
  · intro st fs hposr hfs hrem
    cases hp : st.pos_arg_state with
    | none => simp [runStep, runStepB, hp, hfs, hrem]
    | some q =>
      have := hposr q hp
      simp [runStep, runStepB, hp, this, hfs, hrem]

/-- Witness for C3: the positional remainder of `exRemPos` active from a
fresh state absorbs `--` and the flag-like `-x`; and `--r`'s flag remainder
state in `exRemFlag` consumes `-x` but is terminated by `--`. -/
theorem claim_C3_witness :
    ({ remaining_positionals := [], skip_remaining_flags := true,
       pos_arg_state := some (mkArgState
         (Action.mk [] "rest" .remainder none none .noHelp false none)),
       flag_arg_state := none, matched_flags := [],
       consumed := fun _ => [] } : LoopState).pos_arg_state =
      some (mkArgState
        (Action.mk [] "rest" .remainder none none .noHelp false none)) ∧
    (mkArgState
      (Action.mk [] "rest" .remainder none none .noHelp false none)).is_remainder
        = true ∧
    runLevel exRemPos (["--", "-x"] ++ [""])
      { remaining_positionals := [], skip_remaining_flags := true,
        pos_arg_state := some (mkArgState
          (Action.mk [] "rest" .remainder none none .noHelp false none)),
        flag_arg_state := none, matched_flags := [],
        consumed := fun _ => [] } = .finish
      { remaining_positionals := [], skip_remaining_flags := true,
        pos_arg_state := some
          { mkArgState
              (Action.mk [] "rest" .remainder none none .noHelp false none) with
            count := (mkArgState
              (Action.mk [] "rest" .remainder none none .noHelp false none)).count
              + (["--", "-x"] : List String).length },
        flag_arg_state := none, matched_flags := [],
        consumed := fun d =>
          if d = (mkArgState
              (Action.mk [] "rest" .remainder none none .noHelp false none)).action.dest
          then (fun _ => ([] : List String)) d ++ ["--", "-x"]
          else (fun _ => ([] : List String)) d } ∧
    runStep exRemFlag
      { remaining_positionals :=
          [Action.mk [] "pos" .nargsNone none (some ["p1"]) .noHelp false none],
        skip_remaining_flags := true, pos_arg_state := none,
        flag_arg_state := some (mkArgState
          (Action.mk ["--r"] "r" .remainder none none .noHelp false none)),
        matched_flags := ["--r"], consumed := fun _ => [] } "--" = .cont
      { remaining_positionals :=
          [Action.mk [] "pos" .nargsNone none (some ["p1"]) .noHelp false none],
        skip_remaining_flags := true, pos_arg_state := none,
        flag_arg_state := none, matched_flags := ["--r"],
        consumed := fun _ => [] } :=
  ⟨rfl, by decide,
   (claim_C3_remainder_absorption exRemPos).1 _ _ ["--", "-x"] "" rfl (by decide),
   (claim_C3_remainder_absorption exRemFlag).2.2 _
     (mkArgState (Action.mk ["--r"] "r" .remainder none none .noHelp false none))
     (fun q hq => Option.noConfusion hq) rfl (by decide)⟩

/-- C6 counterexample: on `exAmbig` (flags `--foo`/`--fob`, a two-token
positional with choices `{a, b}`), after `a --fo ` the engine completes the
empty token with `["b"]`: the ambiguous abbreviation `--fo` was *not*
consumed by the active positional slot (which would have filled it and left
only flag candidates `["--foo", "--fob"]`).  And on the flags-only
`exAmbigFlagsOnly`, after `--fo ` the completion is the flag aliases, not
the empty sequence the claim predicts for "no positional slot active". -/
theorem claim_C6_counterexample :
    (getCompletionTexts exAmbig "" 0 ["a", "--fo", ""]).map Completion.text =
      ["b"] ∧
    (getCompletionTexts exAmbig "" 0 ["a", "--fo", ""]).map Completion.text ≠
      ["--foo", "--fob"] ∧
    (getCompletionTexts exAmbigFlagsOnly "" 0 ["--fo", ""]).map
      Completion.text = ["--foo", "--fob"] :=
  ⟨by decide, by decide, by decide⟩

/-- C6 (amended): a prefix token that looks like a flag but is an ambiguous
abbreviation (an exact match of no alias, a prefix of two or more) resolves
to no flag slot and is consumed by *no* slot at all: the engine merely
clears any active flag state and moves on to the next token, leaving the
positional queue, the active positional state, the matched flags and every
consumed-value record unchanged. -/
theorem claim_C6_ambiguous_abbrev (p : Parser) (st : LoopState) (tok : String)
    (hlooks : looksLikeFlag p tok = true)
    (hskip : st.skip_remaining_flags = false)
    (htok : tok ≠ "--")
    (hposr : ∀ q, st.pos_arg_state = some q → q.is_remainder = false)
    (hflagr : ∀ q, st.flag_arg_state = some q →
      (q.is_remainder = false ∧ minUnmet q = false))
    (hexact : flagToAction p tok = none)
    (hamb : 2 ≤ ((flags p).filter (fun f => pyStartsWith f tok)).length) :
    runStep p st tok = .cont { st with flag_arg_state := none } := by
  have hmatch : (match (flags p).filter (fun f => pyStartsWith f tok) with
      | [f] => flagToAction p f
      | _ => none) = (none : Option Action) := by
    cases hc : (flags p).filter (fun f => pyStartsWith f tok) with
    | nil => rfl
    | cons f tl =>
      cases tl with
      | nil => rw [hc] at hamb; simp at hamb
      | cons g tl' => rfl
  have hflagstep : stepFlagToken p st tok = .cont { st with flag_arg_state := none } := by
    unfold stepFlagToken
    have hmin : minUnmetOpt st.flag_arg_state = false := by
      cases hf : st.flag_arg_state with
      | none => rfl
      | some q => simp [minUnmetOpt, (hflagr q hf).2]
    rw [hmin]
    simp only [Bool.false_eq_true, if_false, hexact]
    cases hab : p.allow_abbrev with
    | false => simp
    | true => simp [hmatch]
  cases hp : st.pos_arg_state with
  | none =>
    cases hf : st.flag_arg_state with
    | none =>
      simp [runStep, runStepB, runStepC, hp, hf, htok, hlooks, hskip, hflagstep]
    | some q =>
      simp [runStep, runStepB, runStepC, hp, hf, (hflagr q hf).1, htok,
        hlooks, hskip, hflagstep]
  | some q =>
    cases hf : st.flag_arg_state with
    | none =>
      simp [runStep, runStepB, runStepC, hp, hposr q hp, hf, htok, hlooks,
        hskip, hflagstep]
    | some q2 =>
      simp [runStep, runStepB, runStepC, hp, hposr q hp, hf,
        (hflagr q2 hf).1, htok, hlooks, hskip, hflagstep]

/-- Witness for C6: `--fo` against `exAmbigFlagsOnly` from the initial state
is dropped, only clearing the (already empty) flag state. -/
theorem claim_C6_witness :
    looksLikeFlag exAmbigFlagsOnly "--fo" = true ∧
    flagToAction exAmbigFlagsOnly "--fo" = none ∧
    2 ≤ ((flags exAmbigFlagsOnly).filter
      (fun f => pyStartsWith f "--fo")).length ∧
    runStep exAmbigFlagsOnly (initState exAmbigFlagsOnly) "--fo" =
      .cont { initState exAmbigFlagsOnly with flag_arg_state := none } :=
  ⟨by decide, rfl, by decide,
   claim_C6_ambiguous_abbrev exAmbigFlagsOnly (initState exAmbigFlagsOnly)
     "--fo" (by decide) rfl (by decide)
     (fun q hq => Option.noConfusion hq)
     (fun q hq => Option.noConfusion hq) rfl (by decide)⟩

/-- C7 counterexample: the claim says completing the empty token in a
flags-only grammar yields one candidate per alias of *every* flag slot.  On
`exSuppressed`, whose flag `--b` has `help = argparse.SUPPRESS`,
the engine yields only `["--a"]` — `_get_flag_completions` filters out
suppressed-help flags — not the claimed `["--a", "--b"]`. -/
theorem claim_C7_counterexample :
    (getCompletionTexts exSuppressed "" 0 []).map Completion.text = ["--a"] ∧
    (getCompletionTexts exSuppressed "" 0 []).map Completion.text ≠
      ["--a", "--b"] :=
  ⟨by decide, by decide⟩

/-- C7 (amended): for a grammar with no positional slots, completing the
empty partial token with no prefix tokens yields exactly one candidate per
alias of every flag slot *whose help is not suppressed*, in the grammar's
declared alias order (`flagPairs` order; with no prefix tokens every flag is
still unsatisfied, so no alias is withheld on that ground). -/
theorem claim_C7_flags_only (p : Parser) (sp : Int)
    (hpos : positionals p = []) :
    getCompletionTexts p "" sp [] = specFlagCandidates p sp := by
  rw [getCompletionTexts_run]
  unfold completeFrom
  simp only [runLevel]
  unfold completeLast
  have hlf : looksLikeFlag p "" = false := rfl
  rw [if_neg (by simp [hlf])]
  show (match (initState p).pos_arg_state, (initState p).remaining_positionals with
    | some qs, _ => argCompletions "" qs (initState p).consumed sp
    | none, a :: _ => argCompletions "" (mkArgState a) (initState p).consumed sp
    | none, [] =>
      if (initState p).skip_remaining_flags = false ∧
          (singlePrefixChar p "" = true ∨
            (initState p).remaining_positionals.isEmpty = true) then
        flagCompletions p "" (initState p).matched_flags sp
      else []) = specFlagCandidates p sp
  have hrp : (initState p).remaining_positionals = [] := by
    simp [initState, hpos]
  rw [show (initState p).pos_arg_state = none from rfl, hrp]
  rw [if_pos ⟨rfl, Or.inr rfl⟩]
  exact flagCompletions_empty_eq_spec p sp

/-- Witness for C7: the flags-only grammar `exFlagsOnly` (aliases `-v`,
`--verbose`, `--level`, none suppressed): the empty completion is exactly
the declared aliases in declared order. -/
theorem claim_C7_witness :
    positionals exFlagsOnly = [] ∧
    getCompletionTexts exFlagsOnly "" 0 [] = specFlagCandidates exFlagsOnly 0 ∧
    (specFlagCandidates exFlagsOnly 0).map Completion.text =
      ["-v", "--verbose", "--level"] :=
  ⟨rfl, claim_C7_flags_only exFlagsOnly 0 rfl, by decide⟩

/-- C9: resolving a non-repeatable (non-append/count) flag token extends
`matched_flags` with all of the flag's aliases and *resets* the flag's
consumed-value record to the empty sequence — so choice values consumed
under an earlier occurrence are offered again at the next occurrence —
while resolving a repeatable (append/count-style) flag leaves both
untouched, so its accumulated consumed values stay excluded from choice
completion (first vs second conjunct; in both cases the flag becomes the
active state when its max arity is positive). -/
theorem claim_C9_consumed_reset (p : Parser) (st : LoopState) (tok : String)
    (a : Action)
    (hposr : ∀ q, st.pos_arg_state = some q → q.is_remainder = false)
    (hflagr : ∀ q, st.flag_arg_state = some q →
      (q.is_remainder = false ∧ minUnmet q = false))
    (htok : tok ≠ "--") (hskip : st.skip_remaining_flags = false)
    (hlooks : looksLikeFlag p tok = true)
    (hres : flagToAction p tok = some a) :
    (a.appendLike = false →
      runStep p st tok = .cont (
        if maxPositive (mkArgState a).max then
          { st with flag_arg_state := some (mkArgState a),
                    skip_remaining_flags := (mkArgState a).is_remainder,
                    matched_flags := st.matched_flags ++ a.option_strings,
                    consumed := resetConsumed st.consumed a.dest }
        else
          { st with flag_arg_state := none,
                    matched_flags := st.matched_flags ++ a.option_strings,
                    consumed := resetConsumed st.consumed a.dest })) ∧
    (a.appendLike = true →
      runStep p st tok = .cont (
        if maxPositive (mkArgState a).max then
          { st with flag_arg_state := some (mkArgState a),
                    skip_remaining_flags := (mkArgState a).is_remainder }
        else { st with flag_arg_state := none })) := by
  have hmin : minUnmetOpt st.flag_arg_state = false := by
    cases hf : st.flag_arg_state with
    | none => rfl
    | some q => simp [minUnmetOpt, (hflagr q hf).2]
  have hroute : runStep p st tok = stepFlagToken p st tok := by
    cases hp : st.pos_arg_state with
    | none =>
      cases hf : st.flag_arg_state with
      | none => simp [runStep, runStepB, runStepC, hp, hf, htok, hlooks, hskip]
      | some q =>
        simp [runStep, runStepB, runStepC, hp, hf, (hflagr q hf).1, htok,
          hlooks, hskip]
    | some q =>
      cases hf : st.flag_arg_state with
      | none =>
        simp [runStep, runStepB, runStepC, hp, hposr q hp, hf, htok, hlooks,
          hskip]
      | some q2 =>
        simp [runStep, runStepB, runStepC, hp, hposr q hp, hf,
          (hflagr q2 hf).1, htok, hlooks, hskip]
  constructor
  · intro happ
    rw [hroute]
    unfold stepFlagToken
    rw [hmin]
    simp only [Bool.false_eq_true, if_false, hres, happ]
    cases hm : maxPositive (mkArgState a).max <;> simp [hm]
  · intro happ
    rw [hroute]
    unfold stepFlagToken
    rw [hmin]
    simp only [Bool.false_eq_true, if_false, hres, happ]
    cases hm : maxPositive (mkArgState a).max <;> simp [hm]

/-- Witness for C9: resolving the non-repeatable `-c` of `exChoiceFlag`
from the initial state resets `c`'s record and marks `-c` matched; applying
the engine end-to-end, a value consumed under the first `-c` occurrence is
offered again after a second `-c`, while the repeatable `-a` of
`exAppendFlag` keeps excluding it. -/
theorem claim_C9_witness :
    flagToAction exChoiceFlag "-c" =
      some (Action.mk ["-c"] "c" .nargsNone none (some ["x", "y"]) .noHelp
        false none) ∧
    runStep exChoiceFlag (initState exChoiceFlag) "-c" = .cont
      (if maxPositive (mkArgState
          (Action.mk ["-c"] "c" .nargsNone none (some ["x", "y"]) .noHelp
            false none)).max then
        { initState exChoiceFlag with
          flag_arg_state := some (mkArgState
            (Action.mk ["-c"] "c" .nargsNone none (some ["x", "y"]) .noHelp
              false none)),
          skip_remaining_flags := (mkArgState
            (Action.mk ["-c"] "c" .nargsNone none (some ["x", "y"]) .noHelp
              false none)).is_remainder,
          matched_flags := (initState exChoiceFlag).matched_flags ++
            (Action.mk ["-c"] "c" .nargsNone none (some ["x", "y"]) .noHelp
              false none).option_strings,
          consumed := resetConsumed (initState exChoiceFlag).consumed
            (Action.mk ["-c"] "c" .nargsNone none (some ["x", "y"]) .noHelp
              false none).dest }
      else
        { initState exChoiceFlag with
          flag_arg_state := none,
          matched_flags := (initState exChoiceFlag).matched_flags ++
            (Action.mk ["-c"] "c" .nargsNone none (some ["x", "y"]) .noHelp
              false none).option_strings,
          consumed := resetConsumed (initState exChoiceFlag).consumed
            (Action.mk ["-c"] "c" .nargsNone none (some ["x", "y"]) .noHelp
              false none).dest }) ∧
    (getCompletionTexts exChoiceFlag "" 0 ["-c", "x", "-c", ""]).map
      Completion.text = ["x", "y"] ∧
    (getCompletionTexts exAppendFlag "" 0 ["-a", "x", "-a", ""]).map
      Completion.text = ["y"] :=
  ⟨rfl,
   (claim_C9_consumed_reset exChoiceFlag (initState exChoiceFlag) "-c"
     (Action.mk ["-c"] "c" .nargsNone none (some ["x", "y"]) .noHelp false
       none)
     (fun q hq => Option.noConfusion hq)
     (fun q hq => Option.noConfusion hq)
     (by decide) rfl (by decide) rfl).1 rfl,
   by decide, by decide⟩

/-- C10: a token containing a space is never treated as a flag; a token
matching argparse's negative-number pattern is never treated as a flag when
the parser has no negative-number-looking aliases; and such a non-flag token
(with a non-remainder flag slot active) is processed as a plain value:
the step consumes it into the active slot's record instead of any flag
resolution. -/
theorem claim_C10_nonflag_tokens (p : Parser) :
    (∀ tok : String, tok.data.contains ' ' = true →
      looksLikeFlag p tok = false) ∧
    (∀ tok : String, isNegativeNumberTok tok = true →
      p.has_negative_number_optionals = false →
      looksLikeFlag p tok = false) ∧
    (∀ (st : LoopState) (fs : ArgState) (tok : String),
      st.pos_arg_state = none → st.flag_arg_state = some fs →
      fs.is_remainder = false → looksLikeFlag p tok = false → tok ≠ "--" →
      runStep p st tok = .cont { st with
        flag_arg_state :=
          if reachedMax fs.bump.count fs.bump.max then none else some fs.bump,
        consumed := updateConsumed st.consumed fs.action.dest tok }) := by
  refine ⟨?_, ?_, ?_⟩
  · intro tok h
    unfold looksLikeFlag
    cases hd : tok.data with
    | nil => rfl
    | cons c cl =>
      rw [hd] at h
      split_ifs <;> simp_all
  · intro tok h hno
    unfold looksLikeFlag
    cases hd : tok.data with
    | nil => rfl
    | cons c cl =>
      split_ifs <;> simp_all
  · intro st fs tok hpos hflag hrem hlf htok
    simp [runStep, runStepB, runStepC, hpos, hflag, hrem, hlf, htok]

/-- Witness for C10: against `exChoiceFlag` (prefix char `-`, no
negative-number aliases), `"- x"` (space) and `"-15"` (negative number) are
not flags, and `"-9"` is consumed as a plain value by the active `-c`
slot. -/
theorem claim_C10_witness :
    ("- x" : String).data.contains ' ' = true ∧
    looksLikeFlag exChoiceFlag "- x" = false ∧
    isNegativeNumberTok "-15" = true ∧
    exChoiceFlag.has_negative_number_optionals = false ∧
    looksLikeFlag exChoiceFlag "-15" = false ∧
    runStep exChoiceFlag
      { remaining_positionals := [], skip_remaining_flags := false,
        pos_arg_state := none,
        flag_arg_state := some (mkArgState
          (Action.mk ["-c"] "c" .nargsNone none (some ["x", "y"]) .noHelp
            false none)),
        matched_flags := ["-c"], consumed := fun _ => [] } "-9" = .cont
      { remaining_positionals := [], skip_remaining_flags := false,
        pos_arg_state := none,
        flag_arg_state :=
          if reachedMax
              (mkArgState (Action.mk ["-c"] "c" .nargsNone none
                (some ["x", "y"]) .noHelp false none)).bump.count
              (mkArgState (Action.mk ["-c"] "c" .nargsNone none
                (some ["x", "y"]) .noHelp false none)).bump.max then none
          else some (mkArgState (Action.mk ["-c"] "c" .nargsNone none
            (some ["x", "y"]) .noHelp false none)).bump,
        matched_flags := ["-c"],
        consumed := updateConsumed (fun _ => [])
          (Action.mk ["-c"] "c" .nargsNone none (some ["x", "y"]) .noHelp
            false none).dest "-9" } :=
  ⟨by decide,
   (claim_C10_nonflag_tokens exChoiceFlag).1 "- x" (by decide),
   by decide, rfl,
   (claim_C10_nonflag_tokens exChoiceFlag).2.1 "-15" (by decide) rfl,
   (claim_C10_nonflag_tokens exChoiceFlag).2.2
     { remaining_positionals := [], skip_remaining_flags := false,
       pos_arg_state := none,
       flag_arg_state := some (mkArgState
         (Action.mk ["-c"] "c" .nargsNone none (some ["x", "y"]) .noHelp
           false none)),
       matched_flags := ["-c"], consumed := fun _ => [] }
     (mkArgState (Action.mk ["-c"] "c" .nargsNone none (some ["x", "y"])
       .noHelp false none)) "-9" rfl rfl (by decide) (by decide) (by decide)⟩

theorem shQuote_cases {c : Char} (h : shQuote c = true) :
    c = '"' ∨ c = '\x27' := by
  simpa [shQuote] using h

/-- Helper for C8: if `shlexRun` fails (end of input inside a quoted
section), appending one of the two quote characters makes one of the two
retry attempts succeed — the mechanism behind the completer's
unterminated-quote tolerance. -/
theorem shlexRun_close (cs : List Char) :
    ∀ (st : ShState) (tok : List Char) (acc : List String),
      shStateOK st →
      shlexRun cs st tok acc = none →
      (shlexRun (cs ++ ['"']) st tok acc).isSome = true ∨
      (shlexRun (cs ++ ['\x27']) st tok acc).isSome = true := by
  induction cs with
  | nil =>
    intro st tok acc hok hnone
    cases st with
    | ws => simp [shlexRun] at hnone
    | word => simp [shlexRun] at hnone
    | inQuote q =>
      rcases hok q rfl with hq | hq <;> subst hq
      · left
        simp [shlexRun]
      · right
        simp [shlexRun]
  | cons c cs' ih =>
    intro st tok acc hok hnone
    cases st with
    | ws =>
      simp only [List.cons_append, shlexRun] at hnone ⊢
      by_cases hw : shWS c = true
      · simp only [hw, if_true] at hnone ⊢
        exact ih .ws [] acc (fun q hq => ShState.noConfusion hq) hnone
      · simp only [hw, Bool.false_eq_true, if_false] at hnone ⊢
        by_cases hq : shQuote c = true
        · simp only [hq, if_true] at hnone ⊢
          exact ih (.inQuote c) [c] acc
            (fun q' hq' => by cases hq'; exact shQuote_cases hq) hnone
        · simp only [hq, Bool.false_eq_true, if_false] at hnone ⊢
          exact ih .word [c] acc (fun q hq' => ShState.noConfusion hq') hnone
    | inQuote q =>
      simp only [List.cons_append, shlexRun] at hnone ⊢
      by_cases hc : c = q
      · simp only [hc, if_pos rfl] at hnone ⊢
        exact ih .ws [] (acc ++ [String.mk (tok ++ [q])])
          (fun q' hq' => ShState.noConfusion hq') hnone
      · simp only [hc, if_false] at hnone ⊢
        exact ih (.inQuote q) (tok ++ [c]) acc hok hnone
    | word =>
      simp only [List.cons_append, shlexRun] at hnone ⊢
      by_cases hw : shWS c = true
      · simp only [hw, if_true] at hnone ⊢
        exact ih .ws [] (acc ++ [String.mk tok])
          (fun q hq => ShState.noConfusion hq) hnone
      · simp only [hw, Bool.false_eq_true, if_false] at hnone ⊢
        exact ih .word (tok ++ [c]) acc (fun q hq => ShState.noConfusion hq)
          hnone

/-- C8: every malformed prefix listed by the spec degrades to the empty
candidate sequence rather than an error, and the tokenizer tolerates an
unterminated quote: (1) an end-of-flags `--` while the active flag slot's
minimum arity is unmet; (2) a flag-like token in the same situation; (3) a
flag-like partial token in the same situation; (4) a token matching no
dispatch key at the dispatch slot; (5) when `shlex` tokenization fails, one
of the two quote-appending retries of `get_completions` succeeds, so the
retry ladder never falls through to an exception.  (The engine itself is a
total function by construction — there is no other raise site to model.) -/
theorem claim_C8_never_raises :
    (∀ (p : Parser) (text : String) (sp : Int) (st : LoopState) (fs : ArgState)
        (rest : List String),
      (∀ q, st.pos_arg_state = some q → q.is_remainder = false) →
      st.flag_arg_state = some fs → fs.is_remainder = false →
      minUnmet fs = true → st.skip_remaining_flags = false → rest ≠ [] →
      completeFrom p text sp st ("--" :: rest) = []) ∧
    (∀ (p : Parser) (text : String) (sp : Int) (st : LoopState) (fs : ArgState)
        (tok : String) (rest : List String),
      (∀ q, st.pos_arg_state = some q → q.is_remainder = false) →
      st.flag_arg_state = some fs → fs.is_remainder = false →
      minUnmet fs = true → st.skip_remaining_flags = false →
      looksLikeFlag p tok = true → tok ≠ "--" → rest ≠ [] →
      completeFrom p text sp st (tok :: rest) = []) ∧
    (∀ (p : Parser) (text : String) (sp : Int) (st : LoopState),
      looksLikeFlag p text = true → st.skip_remaining_flags = false →
      minUnmetOpt st.flag_arg_state = true →
      completeLast p text sp st = []) ∧
    (∀ (p : Parser) (text : String) (sp : Int) (st : LoopState) (tok : String)
        (rest : List String) (a : Action) (ps : List Action)
        (tbl : List (String × Parser)),
      rest ≠ [] → st.pos_arg_state = none → st.flag_arg_state = none →
      st.remaining_positionals = a :: ps → a.sub = some tbl →
      lookupSub tok tbl = none →
      (st.skip_remaining_flags = true ∨
        (tok ≠ "--" ∧ looksLikeFlag p tok = false)) →
      completeFrom p text sp st (tok :: rest) = []) ∧
    (∀ s : String, shlexSplit s = none →
      (shlexSplit (s ++ "\"")).isSome = true ∨
      (shlexSplit (s ++ "\x27")).isSome = true) := by
  refine ⟨?_, ?_, ?_, ?_, ?_⟩
  · intro p text sp st fs rest hposr hflag hrem hmin hskip hrest
    obtain ⟨r, rs, rfl⟩ : ∃ r rs, rest = r :: rs := by
      cases rest with
      | nil => exact absurd rfl hrest
      | cons r rs => exact ⟨r, rs, rfl⟩
    have hhalt : runStep p st "--" = .halt := by
      have hm : minUnmetOpt (some fs) = true := by
        simp [minUnmetOpt, hmin]
      cases hp : st.pos_arg_state with
      | none => simp [runStep, runStepB, runStepC, hp, hflag, hrem, hskip, hm]
      | some q =>
        simp [runStep, runStepB, runStepC, hp, hposr q hp, hflag, hrem,
          hskip, hm]
    unfold completeFrom
    simp only [runLevel, hhalt]
  · intro p text sp st fs tok rest hposr hflag hrem hmin hskip hlooks htok hrest
    obtain ⟨r, rs, rfl⟩ : ∃ r rs, rest = r :: rs := by
      cases rest with
      | nil => exact absurd rfl hrest
      | cons r rs => exact ⟨r, rs, rfl⟩
    have hhalt : runStep p st tok = .halt := by
      have hm : minUnmetOpt (some fs) = true := by
        simp [minUnmetOpt, hmin]
      have hft : stepFlagToken p st tok = .halt := by
        unfold stepFlagToken
        rw [hflag, hm]
        rfl
      cases hp : st.pos_arg_state with
      | none =>
        simp [runStep, runStepB, runStepC, hp, hflag, hrem, hskip, htok,
          hlooks, hft]
      | some q =>
        simp [runStep, runStepB, runStepC, hp, hposr q hp, hflag, hrem,
          hskip, htok, hlooks, hft]
    unfold completeFrom
    simp only [runLevel, hhalt]
  · intro p text sp st hlf hskip hmin
    unfold completeLast
    rw [if_pos ⟨hlf, hskip⟩, if_pos hmin]
  · intro p text sp st tok rest a ps tbl hrest hpos hflag hrem hsub hlook hflow
    obtain ⟨r, rs, rfl⟩ : ∃ r rs, rest = r :: rs := by
      cases rest with
      | nil => exact absurd rfl hrest
      | cons r rs => exact ⟨r, rs, rfl⟩
    have hstep : runStep p st tok = .halt := by
      rcases hflow with hskip | ⟨htok, hlf⟩
      · simp [runStep, runStepB, runStepC, stepPositional, hpos, hflag, hrem,
          hsub, hskip, hlook]
      · simp [runStep, runStepB, runStepC, stepPositional, hpos, hflag, hrem,
          hsub, htok, hlf, hlook]
    unfold completeFrom
    simp only [runLevel, hstep]
  · intro s h
    have hmain := shlexRun_close s.data .ws [] []
      (fun q hq => ShState.noConfusion hq) h
    unfold shlexSplit
    rw [String.data_append, String.data_append]
    exact hmain

/-- Witness for C8: the `--x` flag of `exMinArity` (`nargs='+'`, minimum 1)
active with nothing consumed: `--`, a flag-like token and a flag-like
partial all yield the empty sequence; an unmatched subcommand name on
`exDispatch` yields the empty sequence; and the unterminated-quote input
`"abc` is rescued by a quote-appending retry. -/
theorem claim_C8_witness :
    minUnmet (mkArgState (Action.mk ["--x"] "x" .oneOrMore none
      (some ["v1"]) .noHelp false none)) = true ∧
    completeFrom exMinArity "" 0
      { remaining_positionals := [], skip_remaining_flags := false,
        pos_arg_state := none,
        flag_arg_state := some (mkArgState (Action.mk ["--x"] "x" .oneOrMore
          none (some ["v1"]) .noHelp false none)),
        matched_flags := ["--x"], consumed := fun _ => [] }
      ["--", ""] = [] ∧
    completeFrom exMinArity "" 0
      { remaining_positionals := [], skip_remaining_flags := false,
        pos_arg_state := none,
        flag_arg_state := some (mkArgState (Action.mk ["--x"] "x" .oneOrMore
          none (some ["v1"]) .noHelp false none)),
        matched_flags := ["--x"], consumed := fun _ => [] }
      ["-y", ""] = [] ∧
    completeLast exMinArity "-" 0
      { remaining_positionals := [], skip_remaining_flags := false,
        pos_arg_state := none,
        flag_arg_state := some (mkArgState (Action.mk ["--x"] "x" .oneOrMore
          none (some ["v1"]) .noHelp false none)),
        matched_flags := ["--x"], consumed := fun _ => [] } = [] ∧
    completeFrom exDispatch "" 0 (initState exDispatch) ["nosuch", ""] = [] ∧
    shlexSplit "\"abc" = none ∧
    ((shlexSplit ("\"abc" ++ "\"")).isSome = true ∨
      (shlexSplit ("\"abc" ++ "\x27")).isSome = true) :=
  ⟨by decide,
   claim_C8_never_raises.1 exMinArity "" 0 _ _ [""]
     (fun q hq => Option.noConfusion hq) rfl (by decide) (by decide) rfl
     (by decide),
   claim_C8_never_raises.2.1 exMinArity "" 0 _ _ "-y" [""]
     (fun q hq => Option.noConfusion hq) rfl (by decide) (by decide) rfl
     (by decide) (by decide) (by decide),
   claim_C8_never_raises.2.2.1 exMinArity "-" 0 _ (by decide) rfl (by decide),
   claim_C8_never_raises.2.2.2.1 exDispatch "" 0 (initState exDispatch)
     "nosuch" [""]
     (Action.mk [] "command" .parserMulti none none .noHelp false
       (some [("cmd2", exSubGrammar)]))
     [] [("cmd2", exSubGrammar)]
     (by decide) rfl rfl rfl rfl rfl (Or.inr ⟨by decide, by decide⟩),
   by decide,
   claim_C8_never_raises.2.2.2.2 "\"abc" (by decide)⟩

end Ptcmd
